import Mathlib

/-!
Verification of the fake-email mailbox store and UI validation layer.

The persisted schema comes from the SQL migrations
(`temporary_emails`, `received_emails`); the username validation and the
message body renderer come from the Next.js sources
(`src/ui/src/app/api/generate/route.ts`,
`src/ui/src/components/ui/email-view.tsx`).  The Rust store/SMTP backend
binaries are not part of the available sources, so the store operations
are modelled from the specification over the SQL schema's constraints,
as marked on each definition.
-/

namespace FakeEmail

/-- Row of `temporary_emails` (migration `part_000`):
`id UUID PRIMARY KEY`, `address VARCHAR(255) UNIQUE NOT NULL`,
`username VARCHAR(100)` (nullable), `created_at`, `expires_at` timestamps,
`is_active BOOLEAN DEFAULT TRUE`.  UUIDs are modelled as `Nat`,
timestamps as `Nat`. -/
structure TemporaryEmailRow where
  id : Nat
  address : String
  username : Option String
  created_at : Nat
  expires_at : Nat
  is_active : Bool
deriving DecidableEq, Repr

/-- Row of `received_emails` (migration `20251002210847_create_received_emails.sql`):
`id UUID PRIMARY KEY`, `temp_email_id UUID NOT NULL REFERENCES
temporary_emails(id) ON DELETE CASCADE`, `from_address VARCHAR(255) NOT NULL`,
`subject VARCHAR(500)` nullable, `body_plain TEXT` nullable,
`body_html TEXT` nullable, `received_at TIMESTAMP NOT NULL`,
`size_bytes INTEGER` nullable. -/
structure ReceivedEmailRow where
  id : Nat
  temp_email_id : Nat
  from_address : String
  subject : Option String
  body_plain : Option String
  body_html : Option String
  received_at : Nat
  size_bytes : Option Int
deriving DecidableEq, Repr

/-- The SQL check constraint `reasonable_size CHECK (size_bytes <= 10485760)`.
Under SQL three-valued logic a `NULL` `size_bytes` makes the comparison
unknown, and a check constraint that is unknown is satisfied, so a row
with absent `size_bytes` passes. -/
def reasonable_size (r : ReceivedEmailRow) : Bool :=
  match r.size_bytes with
  | none => true
  | some n => n ≤ 10485760

/-- Character class `[a-zA-Z0-9_-]` of the local part in the
`address_format` check constraint. -/
def isLocalChar (c : Char) : Bool :=
  c.isAlpha || c.isDigit || c = '_' || c = '-'

/-- Character class `[a-zA-Z0-9.-]` of the domain part in the
`address_format` check constraint. -/
def isDomainChar (c : Char) : Bool :=
  c.isAlpha || c.isDigit || c = '.' || c = '-'

/-- The SQL check constraint
`address_format CHECK (address ~ '^[a-zA-Z0-9_-]+@[a-zA-Z0-9.-]+$')`.
Neither character class contains `@`, so the anchored regex matches
exactly the strings of the form `localPart ++ "@" ++ domain` where
`localPart` is a non-empty run over `[a-zA-Z0-9_-]` (hence `@`-free,
so it is the prefix up to the first `@`) and `domain` is a non-empty
run over `[a-zA-Z0-9.-]`. -/
def address_format (s : String) : Bool :=
  let localPart := s.data.takeWhile (fun c => ¬ c = '@')
  match s.data.dropWhile (fun c => ¬ c = '@') with
  | '@' :: domain =>
      ¬ localPart.isEmpty && ¬ domain.isEmpty &&
      localPart.all isLocalChar && domain.all isDomainChar
  | _ => false

/-- The mailbox store: the two tables of the schema. -/
structure Store where
  addresses : List TemporaryEmailRow
  messages : List ReceivedEmailRow
deriving DecidableEq, Repr

def Store.empty : Store := ⟨[], []⟩

/-- Errors of the store operations (spec §4.1/§4.3 taxonomy plus the
schema's constraint violations). -/
inductive StoreError where
  | UnknownOwner
  | NotFound
  | DuplicateId
  | DuplicateAddress
  | InvalidFormat
  | SizeTooLarge
deriving DecidableEq, Repr

/-- `true` iff an `Except` result is a success. -/
def exceptIsOk : Except StoreError Store → Bool
  | .ok _ => true
  | .error _ => false

/-- Modelled from the spec: the Rust store layer is absent from the
sources; `insert_address` is the atomic single-row insert of §4.3 over
the `temporary_emails` schema: the primary key and the `UNIQUE` address
constraint reject duplicates, the `address_format` check constraint
rejects ill-formed addresses, and a fresh row starts with
`is_active = true` (schema default, spec "starts true"). -/
def insert_address (st : Store) (i : Nat) (addr : String)
    (username : Option String) (created expires : Nat) :
    Except StoreError Store :=
  if st.addresses.any (fun a => a.id = i) then .error .DuplicateId
  else if st.addresses.any (fun a => a.address = addr) then .error .DuplicateAddress
  else if address_format addr then
    .ok { st with addresses :=
            st.addresses ++ [⟨i, addr, username, created, expires, true⟩] }
  else .error .InvalidFormat

/-- Modelled from the spec: the Rust store layer is absent from the
sources; `insert_message` is the atomic single-row insert of §4.3: it
"fails with `UnknownOwner` if `owner_address_id` does not reference an
existing, currently active address at insert time", then the schema's
`reasonable_size` check constraint and primary key apply. -/
def insert_message (st : Store) (r : ReceivedEmailRow) :
    Except StoreError Store :=
  if st.addresses.any (fun a => a.id = r.temp_email_id ∧ a.is_active = true) then
    if reasonable_size r then
      if st.messages.any (fun m => m.id = r.id) then .error .DuplicateId
      else .ok { st with messages := st.messages ++ [r] }
    else .error .SizeTooLarge
  else .error .UnknownOwner

/-- Modelled from the spec: the Rust store layer is absent from the
sources; `deactivate(address)` of §4.1 is "idempotent; sets
`is_active=false`" and "triggers cascade deletion of owned messages as
part of the same atomic operation" — here a single pure function, so no
intermediate state exists in which the address is inactive but its
messages survive. -/
def deactivate (st : Store) (addr : String) : Store :=
  match st.addresses.find? (fun a => a.address = addr) with
  | none => st
  | some a =>
      { addresses := st.addresses.map
          (fun x => if x.address = addr then { x with is_active := false } else x),
        messages := st.messages.filter (fun m => ¬ m.temp_email_id = a.id) }

/-- The schema's `ON DELETE CASCADE` on `received_emails.temp_email_id`:
removing an address row removes every message referencing it, in the
same operation. -/
def delete_address (st : Store) (i : Nat) : Store :=
  { addresses := st.addresses.filter (fun a => ¬ a.id = i),
    messages := st.messages.filter (fun m => ¬ m.temp_email_id = i) }

/-- Modelled from the spec: the Rust store layer is absent from the
sources; `get_message(address, id)` of §4.3 resolves the address and
"must additionally verify the message's `owner_address_id` matches the
resolved address", returning `NotFound` otherwise. -/
def get_message (st : Store) (addr : String) (i : Nat) :
    Except StoreError ReceivedEmailRow :=
  match st.addresses.find? (fun a => a.address = addr) with
  | none => .error .NotFound
  | some a =>
      match st.messages.find? (fun m => m.id = i ∧ m.temp_email_id = a.id) with
      | none => .error .NotFound
      | some m => .ok m

/-- Modelled from the spec: `delete_message(address, id)` of §4.3,
scoped to the owning address. -/
def delete_message (st : Store) (addr : String) (i : Nat) : Store :=
  match st.addresses.find? (fun a => a.address = addr) with
  | none => st
  | some a =>
      { st with
        messages := st.messages.filter
          (fun m => ¬ (m.id = i ∧ m.temp_email_id = a.id)) }

/-- Modelled from the spec: `delete_all(address)` of §4.3, scoped to
the owning address. -/
def delete_all (st : Store) (addr : String) : Store :=
  match st.addresses.find? (fun a => a.address = addr) with
  | none => st
  | some a =>
      { st with
        messages := st.messages.filter
          (fun m => ¬ m.temp_email_id = a.id) }

/-- Modelled from the spec: `sweep_expired()` of §4.3 "finds all
addresses with `is_active=true and now > expires_at`, deactivates each
and cascades message deletion". -/
def sweep_expired (st : Store) (now : Nat) : Store :=
  { addresses := st.addresses.map
      (fun a => if a.is_active = true ∧ a.expires_at < now
                then { a with is_active := false } else a),
    messages := st.messages.filter
      (fun m => ¬ st.addresses.any
          (fun a => a.id = m.temp_email_id ∧ a.is_active = true ∧ a.expires_at < now)) }

/-- One mutating store operation. -/
inductive Op where
  | insertAddress (i : Nat) (addr : String) (username : Option String)
      (created expires : Nat)
  | insertMessage (r : ReceivedEmailRow)
  | deactivateAddr (addr : String)
  | deleteAddress (i : Nat)
  | deleteMessage (addr : String) (i : Nat)
  | deleteAll (addr : String)
  | sweep (now : Nat)
deriving DecidableEq, Repr

/-- Apply one operation; a failed insert leaves the store unchanged
(atomic single-row inserts, §4.3). -/
def Store.apply (st : Store) : Op → Store
  | .insertAddress i a u c e =>
      match insert_address st i a u c e with
      | .ok st' => st'
      | .error _ => st
  | .insertMessage r =>
      match insert_message st r with
      | .ok st' => st'
      | .error _ => st
  | .deactivateAddr a => deactivate st a
  | .deleteAddress i => delete_address st i
  | .deleteMessage a i => delete_message st a i
  | .deleteAll a => delete_all st a
  | .sweep now => sweep_expired st now

/-- A store reached by a sequence of operations from the empty store. -/
def applyOps (st : Store) (ops : List Op) : Store :=
  ops.foldl Store.apply st

/-! UI layer: `src/ui/src/app/api/generate/route.ts` validates the
optional `username` with the zod schema
`z.string().min(3).max(20).regex(/^[a-zA-Z0-9_]+$/).optional().nullable()`. -/

/-- Character class of the zod regex `[a-zA-Z0-9_]`.  The ASCII-only
`Char.isAlpha`/`Char.isDigit` match the JavaScript regex classes. -/
def isUsernameChar (c : Char) : Bool :=
  c.isAlpha || c.isDigit || c = '_'

/-- `safeParse` succeeds on a present string username iff every zod
check passes: `.min(3)`, `.max(20)` on the length and the regex
`/^[a-zA-Z0-9_]+$/` (non-empty, every character in the class).  Every
string in the class is ASCII, so the Lean character count agrees with
the JavaScript UTF-16 length on all strings whose verdict it decides. -/
def usernameValid (s : String) : Bool :=
  3 ≤ s.length && s.length ≤ 20 && s ≠ "" && s.data.all isUsernameChar

/-- Outcome of the POST handler's validation step. -/
inductive GenerateOutcome where
  | badRequest400
  | forwardToBackend
deriving DecidableEq, Repr

/-- The POST handler of `generate/route.ts`: a missing or `null`
`username` passes `.optional().nullable()` and the request is forwarded
to the backend; a present string is validated and a failure returns
status 400 (`Invalid username.`). -/
def generatePOST (username : Option String) : GenerateOutcome :=
  match username with
  | none => .forwardToBackend
  | some s => if usernameValid s then .forwardToBackend else .badRequest400

/-! UI layer: `src/ui/src/components/ui/email-view.tsx`. -/

/-- The `EmailDetail` interface of `email-view.tsx` (fields used by
`renderBody`; `body_plain` and `body_html` are `string | null`). -/
structure EmailDetail where
  id : String
  from_address : String
  subject : String
  body_plain : Option String
  body_html : Option String
  received_at : String
deriving DecidableEq, Repr

/-- JavaScript truthiness of a `string | null` value: `null` and the
empty string are falsy. -/
def truthyStr : Option String → Bool
  | none => false
  | some s => s ≠ ""

/-- What `renderBody` produces: an HTML rendering
(`dangerouslySetInnerHTML`), a plain-text rendering
(`whitespace-pre-wrap` paragraph), or the explicit empty-content
indication (`"This email has no content."`). -/
inductive RenderedBody where
  | htmlBody (s : String)
  | plainText (s : String)
  | emptyIndication
deriving DecidableEq, Repr

/-- `renderBody` of `email-view.tsx`:
`if (email.body_html) { ...html... } if (email.body_plain) { ...text... }
return <p>This email has no content.</p>` — the branch conditions are
JavaScript truthiness tests. -/
def renderBody (e : EmailDetail) : RenderedBody :=
  if truthyStr e.body_html then .htmlBody (e.body_html.getD "")
  else if truthyStr e.body_plain then .plainText (e.body_plain.getD "")
  else .emptyIndication

/-- `true` iff a rendering is the HTML branch of `renderBody`. -/
def isHtmlRendered : RenderedBody → Bool
  | .htmlBody _ => true
  | _ => false

/-! Schema invariants and their preservation. -/

/-- The schema invariants of the store: the primary key on address ids,
the `UNIQUE` constraint on address strings, the `address_format` check,
the `NOT NULL` foreign key from messages to addresses, and the
`reasonable_size` check. -/
def WF (st : Store) : Prop :=
  st.addresses.Pairwise (fun a b => a.id ≠ b.id) ∧
  st.addresses.Pairwise (fun a b => a.address ≠ b.address) ∧
  (∀ a ∈ st.addresses, address_format a.address = true) ∧
  (∀ m ∈ st.messages, ∃ a ∈ st.addresses, a.id = m.temp_email_id) ∧
  (∀ m ∈ st.messages, ∀ n, m.size_bytes = some n → n ≤ 10485760)

theorem wf_empty : WF Store.empty := by
  simp [WF, Store.empty]

theorem wf_apply (st : Store) (op : Op) (h : WF st) : WF (st.apply op) := by
  obtain ⟨hid, haddr, hfmt, hfk, hsz⟩ := h
  cases op with
  | insertAddress i a u c e =>
      simp only [Store.apply]
      split
      · rename_i st' heq
        simp only [insert_address] at heq
        split at heq
        · simp at heq
        · rename_i hdupid
          split at heq
          · simp at heq
          · rename_i hdupaddr
            split at heq
            · rename_i hfmtok
              injection heq with heq
              subst heq
              refine ⟨?_, ?_, ?_, ?_, hsz⟩
              · rw [List.pairwise_append]
                refine ⟨hid, by simp, ?_⟩
                intro x hx y hy
                simp only [List.mem_singleton] at hy
                subst hy
                simp only [List.any_eq_true, decide_eq_true_eq] at hdupid
                exact fun hxe => hdupid ⟨x, hx, hxe⟩
              · rw [List.pairwise_append]
                refine ⟨haddr, by simp, ?_⟩
                intro x hx y hy
                simp only [List.mem_singleton] at hy
                subst hy
                simp only [List.any_eq_true, decide_eq_true_eq] at hdupaddr
                exact fun hxe => hdupaddr ⟨x, hx, hxe⟩
              · intro x hx
                rcases List.mem_append.mp hx with hx | hx
                · exact hfmt x hx
                · simp only [List.mem_singleton] at hx
                  subst hx
                  exact hfmtok
              · intro m hm
                obtain ⟨b, hb, hbe⟩ := hfk m hm
                exact ⟨b, List.mem_append_left _ hb, hbe⟩
            · simp at heq
      · exact ⟨hid, haddr, hfmt, hfk, hsz⟩
  | insertMessage r =>
      simp only [Store.apply]
      split
      · rename_i st' heq
        simp only [insert_message] at heq
        split at heq
        · rename_i hown
          split at heq
          · rename_i hrs
            split at heq
            · simp at heq
            · injection heq with heq
              subst heq
              refine ⟨hid, haddr, hfmt, ?_, ?_⟩
              · intro m hm
                rcases List.mem_append.mp hm with hm | hm
                · exact hfk m hm
                · simp only [List.mem_singleton] at hm
                  subst hm
                  simp only [List.any_eq_true, decide_eq_true_eq] at hown
                  obtain ⟨b, hb, hbe, _⟩ := hown
                  exact ⟨b, hb, hbe⟩
              · intro m hm n hn
                rcases List.mem_append.mp hm with hm | hm
                · exact hsz m hm n hn
                · simp only [List.mem_singleton] at hm
                  subst hm
                  simp only [reasonable_size, hn, decide_eq_true_eq] at hrs
                  exact hrs
          · simp at heq
        · simp at heq
      · exact ⟨hid, haddr, hfmt, hfk, hsz⟩
  | deactivateAddr a =>
      simp only [Store.apply, deactivate]
      split
      · exact ⟨hid, haddr, hfmt, hfk, hsz⟩
      · rename_i b hb
        refine ⟨?_, ?_, ?_, ?_, ?_⟩
        · rw [List.pairwise_map]
          refine hid.imp ?_
          intro x y hxy
          split <;> split <;> simpa using hxy
        · rw [List.pairwise_map]
          refine haddr.imp ?_
          intro x y hxy
          split <;> split <;> simpa using hxy
        · intro x hx
          obtain ⟨y, hy, hyx⟩ := List.mem_map.mp hx
          subst hyx
          have := hfmt y hy
          split <;> simpa using this
        · intro m hm
          have hm' := List.mem_of_mem_filter hm
          obtain ⟨c, hc, hce⟩ := hfk m hm'
          refine ⟨if c.address = a then { c with is_active := false } else c,
            List.mem_map.mpr ⟨c, hc, rfl⟩, ?_⟩
          split <;> simpa using hce
        · intro m hm
          exact hsz m (List.mem_of_mem_filter hm)
  | deleteAddress i =>
      simp only [Store.apply, delete_address]
      refine ⟨hid.filter _, haddr.filter _, ?_, ?_, ?_⟩
      · intro x hx
        exact hfmt x (List.mem_of_mem_filter hx)
      · intro m hm
        rw [List.mem_filter] at hm
        obtain ⟨hm', hmne⟩ := hm
        obtain ⟨c, hc, hce⟩ := hfk m hm'
        refine ⟨c, List.mem_filter.mpr ⟨hc, ?_⟩, hce⟩
        simp only [decide_eq_true_eq] at hmne ⊢
        intro hci
        exact hmne (hce ▸ hci ▸ rfl)
      · intro m hm
        exact hsz m (List.mem_of_mem_filter hm)
  | deleteMessage a i =>
      simp only [Store.apply, delete_message]
      split
      · exact ⟨hid, haddr, hfmt, hfk, hsz⟩
      · refine ⟨hid, haddr, hfmt, ?_, ?_⟩
        · intro m hm
          exact hfk m (List.mem_of_mem_filter hm)
        · intro m hm
          exact hsz m (List.mem_of_mem_filter hm)
  | deleteAll a =>
      simp only [Store.apply, delete_all]
      split
      · exact ⟨hid, haddr, hfmt, hfk, hsz⟩
      · refine ⟨hid, haddr, hfmt, ?_, ?_⟩
        · intro m hm
          exact hfk m (List.mem_of_mem_filter hm)
        · intro m hm
          exact hsz m (List.mem_of_mem_filter hm)
  | sweep now =>
      simp only [Store.apply, sweep_expired]
      refine ⟨?_, ?_, ?_, ?_, ?_⟩
      · rw [List.pairwise_map]
        refine hid.imp ?_
        intro x y hxy
        split <;> split <;> simpa using hxy
      · rw [List.pairwise_map]
        refine haddr.imp ?_
        intro x y hxy
        split <;> split <;> simpa using hxy
      · intro x hx
        obtain ⟨y, hy, hyx⟩ := List.mem_map.mp hx
        subst hyx
        have := hfmt y hy
        split <;> simpa using this
      · intro m hm
        have hm' := List.mem_of_mem_filter hm
        obtain ⟨c, hc, hce⟩ := hfk m hm'
        refine ⟨if c.is_active = true ∧ c.expires_at < now
                then { c with is_active := false } else c,
          List.mem_map.mpr ⟨c, hc, rfl⟩, ?_⟩
        split <;> simpa using hce
      · intro m hm
        exact hsz m (List.mem_of_mem_filter hm)

theorem wf_applyOps (ops : List Op) : WF (applyOps Store.empty ops) := by
  suffices h : ∀ st, WF st → WF (applyOps st ops) from h Store.empty wf_empty
  induction ops with
  | nil => intro st h; exact h
  | cons op ops ih =>
      intro st h
      exact ih (st.apply op) (wf_apply st op h)

/-- Unfolding lemma for `reasonable_size`. -/
theorem reasonable_size_eq (r : ReceivedEmailRow) :
    reasonable_size r = match r.size_bytes with
      | none => true
      | some n => decide (n ≤ 10485760) := rfl

/-- In a list that is pairwise distinct on `id`, two members with the
same `id` are the same row. -/
theorem pairwise_id_unique {l : List TemporaryEmailRow}
    (h : l.Pairwise (fun a b => a.id ≠ b.id)) {a b : TemporaryEmailRow}
    (ha : a ∈ l) (hb : b ∈ l) (he : a.id = b.id) : a = b := by
  induction l with
  | nil => cases ha
  | cons x xs ih =>
      rcases List.pairwise_cons.mp h with ⟨hx, hxs⟩
      rcases List.mem_cons.mp ha with ha1 | ha1
      · rcases List.mem_cons.mp hb with hb1 | hb1
        · rw [ha1, hb1]
        · rw [ha1] at he ⊢
          exact absurd he (hx b hb1)
      · rcases List.mem_cons.mp hb with hb1 | hb1
        · rw [hb1] at he ⊢
          exact absurd he.symm (hx a ha1)
        · exact ih hxs ha1 hb1

/-- Look an address row up by its id. -/
def findAddr (st : Store) (i : Nat) : Option TemporaryEmailRow :=
  st.addresses.find? (fun a => a.id = i)

/-- Where an address row after one operation comes from: either it
descends from a row of the previous store with the same id, and the
operation cannot have turned that row from inactive to active; or it is
a freshly inserted row, which is active and has an id no previous row
had. -/
theorem apply_addresses_origin (st : Store) (op : Op)
    (a' : TemporaryEmailRow) (h : a' ∈ (st.apply op).addresses) :
    (∃ a ∈ st.addresses, a.id = a'.id ∧
        (a.is_active = false → a'.is_active = false)) ∨
    (a'.is_active = true ∧ ∀ a ∈ st.addresses, a.id ≠ a'.id) := by
  cases op with
  | insertAddress i a u c e =>
      simp only [Store.apply] at h
      split at h
      · rename_i st' heq
        simp only [insert_address] at heq
        split at heq
        · simp at heq
        · rename_i hdupid
          split at heq
          · simp at heq
          · split at heq
            · injection heq with heq
              subst heq
              rcases List.mem_append.mp h with h | h
              · exact Or.inl ⟨a', h, rfl, fun hx => hx⟩
              · simp only [List.mem_singleton] at h
                subst h
                refine Or.inr ⟨rfl, ?_⟩
                intro b hb
                simp only [List.any_eq_true, decide_eq_true_eq] at hdupid
                exact fun hbe => hdupid ⟨b, hb, hbe⟩
            · simp at heq
      · exact Or.inl ⟨a', h, rfl, fun hx => hx⟩
  | insertMessage r =>
      simp only [Store.apply] at h
      split at h
      · rename_i st' heq
        simp only [insert_message] at heq
        split at heq
        · split at heq
          · split at heq
            · simp at heq
            · injection heq with heq
              subst heq
              exact Or.inl ⟨a', h, rfl, fun hx => hx⟩
          · simp at heq
        · simp at heq
      · exact Or.inl ⟨a', h, rfl, fun hx => hx⟩
  | deactivateAddr a =>
      simp only [Store.apply, deactivate] at h
      split at h
      · exact Or.inl ⟨a', h, rfl, fun hx => hx⟩
      · obtain ⟨y, hy, hyx⟩ := List.mem_map.mp h
        refine Or.inl ⟨y, hy, ?_, ?_⟩
        · rw [← hyx]
          split <;> rfl
        · intro hin
          rw [← hyx]
          split
          · rfl
          · exact hin
  | deleteAddress i =>
      simp only [Store.apply, delete_address] at h
      exact Or.inl ⟨a', List.mem_of_mem_filter h, rfl, fun hx => hx⟩
  | deleteMessage a i =>
      simp only [Store.apply, delete_message] at h
      split at h
      · exact Or.inl ⟨a', h, rfl, fun hx => hx⟩
      · exact Or.inl ⟨a', h, rfl, fun hx => hx⟩
  | deleteAll a =>
      simp only [Store.apply, delete_all] at h
      split at h
      · exact Or.inl ⟨a', h, rfl, fun hx => hx⟩
      · exact Or.inl ⟨a', h, rfl, fun hx => hx⟩
  | sweep now =>
      simp only [Store.apply, sweep_expired] at h
      obtain ⟨y, hy, hyx⟩ := List.mem_map.mp h
      refine Or.inl ⟨y, hy, ?_, ?_⟩
      · rw [← hyx]
        split <;> rfl
      · intro hin
        rw [← hyx]
        split
        · rfl
        · exact hin

/-! Concrete fixtures used to instantiate the theorems. -/

def wAddr : TemporaryEmailRow := ⟨1, "u1@d.com", none, 0, 100, true⟩

def wAddrB : TemporaryEmailRow := ⟨2, "u2@d.com", none, 0, 100, true⟩

def wMsg : ReceivedEmailRow :=
  ⟨10, 1, "a@b.com", some "Test", some "hello", none, 5, some 5⟩

def wBig : ReceivedEmailRow :=
  ⟨11, 1, "a@b.com", none, none, none, 5, some 10485761⟩

def wOps : List Op :=
  [.insertAddress 1 "u1@d.com" none 0 100, .insertMessage wMsg]

def wStore : Store := ⟨[wAddr, wAddrB], [wMsg]⟩

def wStoreInactive : Store := ⟨[⟨1, "u1@d.com", none, 0, 100, false⟩], []⟩

/-! The claims. -/

/-- C1: every message row of a store reached by any sequence of
operations has `size_bytes` at most 10485760 (10 MiB) whenever it is
recorded, and an insert whose `size_bytes` exceeds the ceiling never
succeeds, so it produces no stored row. -/
theorem message_size_ceiling :
    (∀ ops, ∀ m ∈ (applyOps Store.empty ops).messages, ∀ n : Int,
        m.size_bytes = some n → n ≤ 10485760) ∧
    (∀ st r, ∀ n : Int, r.size_bytes = some n → 10485760 < n →
        exceptIsOk (insert_message st r) = false) := by
  constructor
  · intro ops m hm n hn
    exact (wf_applyOps ops).2.2.2.2 m hm n hn
  · intro st r n hn hgt
    have hrs : reasonable_size r = false := by
      rw [reasonable_size_eq, hn]
      simpa using hgt
    unfold insert_message
    split
    · rw [hrs]
      rfl
    · rfl

theorem message_size_ceiling_witness :
    (5 : Int) ≤ 10485760 ∧
    exceptIsOk (insert_message wStore wBig) = false := by
  constructor
  · exact message_size_ceiling.1 wOps wMsg (by decide) 5 (by decide)
  · exact message_size_ceiling.2 wStore wBig 10485761 (by decide) (by decide)

/-- C10: the `size_bytes` column is nullable (`Option`), a row with
absent `size_bytes` satisfies the `reasonable_size` check constraint,
and the constraint holds exactly when every recorded size is at most
10485760 — so the ceiling constrains only rows whose size was
recorded. -/
theorem reasonable_size_nullable :
    (∀ r : ReceivedEmailRow, r.size_bytes = none → reasonable_size r = true) ∧
    (∀ r : ReceivedEmailRow, reasonable_size r = true ↔
        ∀ n : Int, r.size_bytes = some n → n ≤ 10485760) := by
  constructor
  · intro r h
    rw [reasonable_size_eq, h]
  · intro r
    rw [reasonable_size_eq]
    rcases hsb : r.size_bytes with _ | n
    · simp
    · simp

theorem reasonable_size_nullable_witness :
    reasonable_size ⟨12, 1, "a@b.com", none, none, none, 5, none⟩ = true :=
  reasonable_size_nullable.1 ⟨12, 1, "a@b.com", none, none, none, 5, none⟩ rfl

/-- C2: `insert_message` fails with `UnknownOwner` whenever no address
row both carries `owner_address_id` and is currently active — covering
a missing row and an inactive row alike — and the failed insert leaves
the store unchanged, so no row is stored. -/
theorem insert_message_unknown_owner :
    ∀ st r, (∀ a ∈ st.addresses, a.id = r.temp_email_id → a.is_active = false) →
      insert_message st r = .error .UnknownOwner ∧
      Store.apply st (.insertMessage r) = st := by
  intro st r h
  have hany : (st.addresses.any
      fun a => a.id = r.temp_email_id ∧ a.is_active = true) = false := by
    rw [List.any_eq_false]
    intro a ha
    simp only [decide_eq_true_eq, not_and]
    intro hae
    rw [h a ha hae]
    simp
  have h1 : insert_message st r = .error .UnknownOwner := by
    unfold insert_message
    rw [hany]
    simp
  exact ⟨h1, by simp [Store.apply, h1]⟩

theorem insert_message_unknown_owner_witness :
    insert_message wStoreInactive wMsg = .error .UnknownOwner ∧
    Store.apply wStoreInactive (.insertMessage wMsg) = wStoreInactive :=
  insert_message_unknown_owner wStoreInactive wMsg (by decide)

/-- C3: when address string `A` resolves to row `a`, `deactivate` in one
atomic step leaves no message owned by `a` readable and every row with
address `A` inactive — being a single pure function, it admits no
intermediate state in which the address is inactive but its messages
survive. -/
theorem deactivate_atomic_cascade :
    ∀ st A a, st.addresses.find? (fun x => x.address = A) = some a →
      (∀ m ∈ (deactivate st A).messages, m.temp_email_id ≠ a.id) ∧
      (∀ x ∈ (deactivate st A).addresses, x.address = A → x.is_active = false) := by
  intro st A a hfind
  unfold deactivate
  rw [hfind]
  constructor
  · intro m hm
    have := (List.mem_filter.mp hm).2
    simpa using this
  · intro x hx hxa
    obtain ⟨y, hy, hyx⟩ := List.mem_map.mp hx
    by_cases hya : y.address = A
    · rw [if_pos hya] at hyx
      rw [← hyx]
    · rw [if_neg hya] at hyx
      rw [← hyx] at hxa
      exact absurd hxa hya

theorem deactivate_atomic_cascade_witness :
    (∀ m ∈ (deactivate wStore "u1@d.com").messages, m.temp_email_id ≠ wAddr.id) ∧
    (∀ x ∈ (deactivate wStore "u1@d.com").addresses,
        x.address = "u1@d.com" → x.is_active = false) :=
  deactivate_atomic_cascade wStore "u1@d.com" wAddr (by decide)

/-- C4: in a store reached by any sequence of operations, every message
row references exactly one address row via `temp_email_id`, and
deleting an address row cascades: afterwards no message references the
deleted id and no address row carries it. -/
theorem message_ownership_and_cascade :
    (∀ ops, ∀ m ∈ (applyOps Store.empty ops).messages,
        ∃! a, a ∈ (applyOps Store.empty ops).addresses ∧
          a.id = m.temp_email_id) ∧
    (∀ st, ∀ i : Nat,
        (∀ m ∈ (delete_address st i).messages, m.temp_email_id ≠ i) ∧
        (∀ a ∈ (delete_address st i).addresses, a.id ≠ i)) := by
  constructor
  · intro ops m hm
    obtain ⟨hid, _, _, hfk, _⟩ := wf_applyOps ops
    obtain ⟨a, ha, hae⟩ := hfk m hm
    refine ⟨a, ⟨ha, hae⟩, ?_⟩
    rintro b ⟨hb, hbe⟩
    exact pairwise_id_unique hid hb ha (hbe.trans hae.symm)
  · intro st i
    constructor
    · intro m hm
      have := (List.mem_filter.mp hm).2
      simpa using this
    · intro a ha
      have := (List.mem_filter.mp ha).2
      simpa using this

theorem message_ownership_and_cascade_witness :
    (∃! a, a ∈ (applyOps Store.empty wOps).addresses ∧
        a.id = wMsg.temp_email_id) ∧
    (∀ m ∈ (delete_address wStore 1).messages, m.temp_email_id ≠ 1) ∧
    (∀ a ∈ (delete_address wStore 1).addresses, a.id ≠ 1) :=
  ⟨message_ownership_and_cascade.1 wOps wMsg (by decide),
   message_ownership_and_cascade.2 wStore 1⟩

/-- C5: in a store reached by any sequence of operations, the stored
address strings are pairwise distinct and every one satisfies the
`address_format` check — `localPart@domain` with the local part drawn
from alphanumerics, underscore and hyphen. -/
theorem address_unique_and_formatted :
    ∀ ops, ((applyOps Store.empty ops).addresses.Pairwise
        (fun a b => a.address ≠ b.address)) ∧
      (∀ a ∈ (applyOps Store.empty ops).addresses,
          address_format a.address = true) := by
  intro ops
  obtain ⟨_, haddr, hfmt, _, _⟩ := wf_applyOps ops
  exact ⟨haddr, hfmt⟩

theorem address_unique_and_formatted_witness :
    ((applyOps Store.empty wOps).addresses.Pairwise
        (fun a b => a.address ≠ b.address)) ∧
    address_format wAddr.address = true :=
  ⟨(address_unique_and_formatted wOps).1,
   (address_unique_and_formatted wOps).2 wAddr (by decide)⟩

/-- C6: over any reachable store and any single further operation, an
address id that was absent and appears carries `is_active = true`
(creation starts active), and an address id whose row was inactive
never has an active row afterwards — `is_active` only ever transitions
true→false. -/
theorem is_active_monotone :
    ∀ ops op (i : Nat),
      (findAddr (applyOps Store.empty ops) i = none →
        ∀ a', findAddr ((applyOps Store.empty ops).apply op) i = some a' →
          a'.is_active = true) ∧
      (∀ a a', findAddr (applyOps Store.empty ops) i = some a →
        a.is_active = false →
        findAddr ((applyOps Store.empty ops).apply op) i = some a' →
        a'.is_active = false) := by
  intro ops op i
  obtain ⟨hid, _, _, _, _⟩ := wf_applyOps ops
  constructor
  · intro hnone a' hfind
    simp only [findAddr] at hnone hfind
    have ha'mem := List.mem_of_find?_eq_some hfind
    rcases apply_addresses_origin _ op a' ha'mem with ⟨a, ha, haid, _⟩ | ⟨hact, _⟩
    · have hai : a'.id = i := by
        have := List.find?_some hfind
        simpa using this
      rw [List.find?_eq_none] at hnone
      have := hnone a ha
      simp only [decide_eq_true_eq] at this
      exact absurd (haid.trans hai) this
    · exact hact
  · intro a a' hfa hinact hfind
    simp only [findAddr] at hfa hfind
    have ha'mem := List.mem_of_find?_eq_some hfind
    have hai : a'.id = i := by
      have := List.find?_some hfind
      simpa using this
    have hamem := List.mem_of_find?_eq_some hfa
    have haid : a.id = i := by
      have := List.find?_some hfa
      simpa using this
    rcases apply_addresses_origin _ op a' ha'mem with ⟨b, hb, hbid, hprop⟩ | ⟨_, hno⟩
    · have hba : b = a := pairwise_id_unique hid hb hamem (by rw [hbid, hai, haid])
      rw [hba] at hprop
      exact hprop hinact
    · exact absurd (haid.trans hai.symm) (hno a hamem)

theorem is_active_monotone_witness :
    (⟨1, "u1@d.com", none, 0, 100, true⟩ : TemporaryEmailRow).is_active = true ∧
    (⟨1, "u1@d.com", none, 0, 100, false⟩ : TemporaryEmailRow).is_active = false := by
  constructor
  · exact (is_active_monotone [] (.insertAddress 1 "u1@d.com" none 0 100) 1).1
      (by decide) ⟨1, "u1@d.com", none, 0, 100, true⟩ (by decide)
  · exact (is_active_monotone
      [.insertAddress 1 "u1@d.com" none 0 100, .deactivateAddr "u1@d.com"]
      (.sweep 0) 1).2
      ⟨1, "u1@d.com", none, 0, 100, false⟩ ⟨1, "u1@d.com", none, 0, 100, false⟩
      (by decide) (by decide) (by decide)

/-- C7: when address `B` resolves to row `b` and every message with a
given id is owned by a different address id `aid`, `get_message` on `B`
with that id fails with `NotFound`, so a cross-mailbox read leaks no
content. -/
theorem get_message_cross_mailbox :
    ∀ st B (i aid : Nat) b,
      st.addresses.find? (fun x => x.address = B) = some b →
      b.id ≠ aid →
      (∀ m ∈ st.messages, m.id = i → m.temp_email_id = aid) →
      get_message st B i = .error .NotFound := by
  intro st B i aid b hfind hne hown
  have hmsg : st.messages.find?
      (fun m => m.id = i ∧ m.temp_email_id = b.id) = none := by
    rw [List.find?_eq_none]
    intro m hm
    simp only [decide_eq_true_eq, not_and]
    intro hmi hmo
    exact hne (hmo.symm.trans (hown m hm hmi))
  unfold get_message
  simp only [hfind, hmsg]

theorem get_message_cross_mailbox_witness :
    get_message wStore "u2@d.com" 10 = .error .NotFound :=
  get_message_cross_mailbox wStore "u2@d.com" 10 1 wAddrB
    (by decide) (by decide) (by decide)

/-- C8: the generate route rejects with 400 every present username that
is shorter than 3 characters, longer than 20 characters, or contains a
character outside `[a-zA-Z0-9_]`, while an absent (or `null`) username
passes validation and the request is forwarded. -/
theorem generate_username_validation :
    (∀ s : String, (s.length < 3 ∨ 20 < s.length ∨
        ∃ c ∈ s.data, isUsernameChar c = false) →
      generatePOST (some s) = .badRequest400) ∧
    generatePOST none = .forwardToBackend := by
  constructor
  · intro s hs
    have hval : usernameValid s = false := by
      rw [Bool.eq_false_iff]
      intro hv
      simp only [usernameValid, Bool.and_eq_true, decide_eq_true_eq] at hv
      obtain ⟨⟨⟨h3, h20⟩, hne⟩, hall⟩ := hv
      rcases hs with h | h | ⟨c, hc, hbad⟩
      · omega
      · omega
      · rw [List.all_eq_true] at hall
        have := hall c hc
        exact absurd this (by simp [hbad])
    simp [generatePOST, hval]
  · rfl

theorem generate_username_validation_witness :
    generatePOST (some "ab") = .badRequest400 ∧
    generatePOST none = .forwardToBackend :=
  ⟨generate_username_validation.1 "ab" (Or.inl (by decide)),
   generate_username_validation.2⟩

/-- A concrete message whose HTML body is present (non-null) but the
empty string, and whose plain body is null. -/
def c9Email : EmailDetail :=
  ⟨"id1", "a@b.com", "Subj", none, some "", "2025-10-02T21:08:47Z"⟩

/-- C9 counterexample: a message whose HTML body is present (non-null)
but empty is not rendered as HTML — `renderBody` tests JavaScript
truthiness, under which the empty string is falsy, so the claim "when
an HTML body is present it is rendered as HTML" fails at this input. -/
theorem renderBody_empty_html_counterexample :
    c9Email.body_html.isSome = true ∧
    isHtmlRendered (renderBody c9Email) = false := by decide

/-- C9 (amended): when both bodies are absent or empty, `renderBody`
produces the explicit empty-content indication; when a non-empty HTML
body is present it is rendered as HTML; otherwise a present non-empty
plain body is rendered as text. -/
theorem renderBody_amended :
    (∀ e : EmailDetail, truthyStr e.body_html = false →
        truthyStr e.body_plain = false → renderBody e = .emptyIndication) ∧
    (∀ e : EmailDetail, ∀ h : String, e.body_html = some h → h ≠ "" →
        renderBody e = .htmlBody h) ∧
    (∀ e : EmailDetail, ∀ p : String, truthyStr e.body_html = false →
        e.body_plain = some p → p ≠ "" → renderBody e = .plainText p) := by
  refine ⟨?_, ?_, ?_⟩
  · intro e h1 h2
    simp [renderBody, h1, h2]
  · intro e h hh hne
    have ht : truthyStr (some h) = true := by simp [truthyStr, hne]
    simp [renderBody, hh, ht]
  · intro e p h1 hp hne
    have ht : truthyStr (some p) = true := by simp [truthyStr, hne]
    simp [renderBody, h1, hp, ht]

theorem renderBody_amended_witness :
    renderBody ⟨"i", "f", "s", none, none, "t"⟩ = .emptyIndication ∧
    renderBody ⟨"i", "f", "s", none, some "<b>x</b>", "t"⟩ = .htmlBody "<b>x</b>" ∧
    renderBody ⟨"i", "f", "s", some "hi", some "", "t"⟩ = .plainText "hi" :=
  ⟨renderBody_amended.1 ⟨"i", "f", "s", none, none, "t"⟩ (by decide) (by decide),
   renderBody_amended.2.1 ⟨"i", "f", "s", none, some "<b>x</b>", "t"⟩ "<b>x</b>"
     rfl (by decide),
   renderBody_amended.2.2 ⟨"i", "f", "s", some "hi", some "", "t"⟩ "hi"
     (by decide) rfl (by decide)⟩

end FakeEmail
